import Mathlib

/-!
Verification of the durable email task queue of udisondev/learn-go.

Shallow embedding of:
- internal/email/models.go   (Task struct, EmailType enum directive, GetConfig)
- internal/email/queue.go    (Queue.Enqueue, Queue.Dequeue, Queue.MarkCompleted, Queue.MarkFailed)
- internal/email/sender.go   (Sender.Send, the unknown-email-type check)
- cmd/verificator/main.go    (processNextTask, the worker tick)
- migrations/00014_create_email_queue.sql (column defaults of table email_queue)

Timestamps are modelled as Int nanoseconds (like Go time.Duration); the
database is modelled as a list of rows plus the next BIGSERIAL id; each
operation takes the current wall-clock time as an explicit argument.
External effects (SMTP, JSON marshal and unmarshal, template rendering)
enter as explicit Except-valued parameters.
-/

/-- One minute in nanoseconds, the value of Go time.Minute. -/
def minute : Int := 60000000000

/-- go-enum value of EmailType verification (ENUM directive in models.go, first value). -/
def EmailTypeVerification : Int := 0

/-- go-enum value of EmailType password_reset. -/
def EmailTypePasswordReset : Int := 1

/-- go-enum value of EmailType notification. -/
def EmailTypeNotification : Int := 2

/-- Modelled from the spec: the go-enum generated file for EmailType is not in src;
models.go only carries the directive ENUM(verification, password_reset, notification)
and the spec fixes the closed set of kinds. String renders the enum name, and an
out-of-range value renders in the go-enum fallback format. -/
def EmailTypeString (k : Int) : String :=
  if k = EmailTypeVerification then "verification"
  else if k = EmailTypePasswordReset then "password_reset"
  else if k = EmailTypeNotification then "notification"
  else "EmailType(" ++ toString k ++ ")"

/-- Modelled from the spec: the go-enum generated ParseEmailType is not in src; per the
directive it accepts exactly the three kind names and rejects anything else as a
data-integrity error, as the spec requires for the closed set. The nocase flag also
folds case on input; the fold is omitted here because every stored email_type is
written by EmailTypeString and is already in canonical lower case. -/
def ParseEmailType (s : String) : Except String Int :=
  match s with
  | "verification" => Except.ok EmailTypeVerification
  | "password_reset" => Except.ok EmailTypePasswordReset
  | "notification" => Except.ok EmailTypeNotification
  | _ => Except.error (s ++ " is not a valid EmailType")

/-- EmailConfig from models.go: subject line and template name for one email type. -/
structure EmailConfig where
  subject : String
  template : String
deriving DecidableEq

/-- GetConfig from models.go: lookup in the emailConfigs map, none for unknown types. -/
def GetConfig (k : Int) : Option EmailConfig :=
  if k = EmailTypeVerification then some ⟨"Подтвердите ваш email", "verification"⟩
  else if k = EmailTypePasswordReset then some ⟨"Сброс пароля", "password_reset"⟩
  else if k = EmailTypeNotification then some ⟨"Уведомление", "notification"⟩
  else none

/-- A row of the email_queue table (migration 00014): the durable task record.
email_type is stored as TEXT, written by EmailTypeString at enqueue time. -/
structure Row where
  id : Int
  emailType : String
  recipientEmail : String
  userID : Option Int
  payload : String
  attempts : Int
  maxAttempts : Int
  status : String
  error : Option String
  createdAt : Int
  processedAt : Option Int
  nextRetryAt : Int
deriving DecidableEq

/-- The Go email.Task struct (models.go): what Dequeue scans and returns to the worker.
EmailType here is the parsed enum value (a Go int). -/
structure EmailTask where
  id : Int
  emailType : Int
  recipientEmail : String
  userID : Option Int
  payload : String
  attempts : Int
  maxAttempts : Int
  status : String
  error : Option String
  createdAt : Int
  processedAt : Option Int
  nextRetryAt : Int
deriving DecidableEq

/-- The database state: the email_queue rows plus the next BIGSERIAL id. -/
structure QState where
  tasks : List Row
  nextId : Int
deriving DecidableEq

/-- The WHERE clause of Dequeue's SELECT: status = pending and next_retry_at <= now. -/
def eligible (now : Int) (t : Row) : Bool :=
  t.status == "pending" && decide (t.nextRetryAt ≤ now)

/-- The row a SELECT ... ORDER BY created_at ASC LIMIT 1 returns from a candidate list:
an element with minimal created_at (first such element in list order on ties, which the
SQL leaves unspecified). -/
def pickMin : List Row → Option Row
  | [] => none
  | t :: ts =>
    match pickMin ts with
    | none => some t
    | some u => if t.createdAt ≤ u.createdAt then some t else some u

/-- The full SELECT of Dequeue: filter to eligible rows, order by created_at, limit 1. -/
def selectNext (now : Int) (ts : List Row) : Option Row :=
  pickMin (ts.filter (fun t => eligible now t))

/-- The UPDATE of Dequeue: SET status = processing, attempts = task.Attempts + 1
WHERE id = task.ID, where task holds the values scanned from the selected row r. -/
def claimUpdate (r : Row) (ts : List Row) : List Row :=
  ts.map (fun t =>
    if t.id == r.id then { t with status := "processing", attempts := r.attempts + 1 } else t)

/-- The Task value Dequeue returns: the scanned columns (id, email_type parsed to k,
recipient_email, user_id, payload, attempts, max_attempts), Attempts already
incremented for the current claim (task.Attempts++ after commit); the remaining
struct fields are never scanned and keep their Go zero values. -/
def returnedTask (r : Row) (k : Int) : EmailTask :=
  { id := r.id, emailType := k, recipientEmail := r.recipientEmail, userID := r.userID,
    payload := r.payload, attempts := r.attempts + 1, maxAttempts := r.maxAttempts,
    status := "", error := none, createdAt := 0, processedAt := none, nextRetryAt := 0 }

/-- Queue.Dequeue (queue.go): select one eligible row FIFO by created_at; none is the
no-work case (ok, nil task); an unparseable email_type aborts with an error and the
transaction rolls back (no state change); otherwise the row is marked processing with
attempts incremented and the scanned task is returned. -/
def dequeue (now : Int) (s : QState) : Except String (Option EmailTask × QState) :=
  match selectNext now s.tasks with
  | none => Except.ok (none, s)
  | some r =>
    match ParseEmailType r.emailType with
    | Except.error e => Except.error ("parse email type: " ++ e)
    | Except.ok k =>
        Except.ok (some (returnedTask r k), { s with tasks := claimUpdate r s.tasks })

/-- The row Queue.Enqueue inserts: explicit columns email_type, recipient_email,
user_id, payload; all other columns take the defaults of migration 00014:
attempts 0, max_attempts 3, status pending, error NULL, created_at NOW(),
processed_at NULL, next_retry_at NOW(). -/
def newRow (ty : Int) (rcpt : String) (uid : Option Int) (bytes : String)
    (now : Int) (id : Int) : Row :=
  { id := id, emailType := EmailTypeString ty, recipientEmail := rcpt, userID := uid,
    payload := bytes, attempts := 0, maxAttempts := 3, status := "pending",
    error := none, createdAt := now, processedAt := none, nextRetryAt := now }

/-- Queue.Enqueue (queue.go): json.Marshal of the payload enters as an Except-valued
argument (its failure is the only error path in the model; the store itself is modelled
as always available); on success exactly one row is inserted. -/
def enqueue (ty : Int) (rcpt : String) (uid : Option Int)
    (payloadMarshal : Except String String) (now : Int) (s : QState) :
    Except String QState :=
  match payloadMarshal with
  | Except.error e => Except.error ("marshal payload: " ++ e)
  | Except.ok bytes =>
      Except.ok { tasks := s.tasks ++ [newRow ty rcpt uid bytes now s.nextId],
                  nextId := s.nextId + 1 }

/-- Queue.MarkCompleted (queue.go): UPDATE SET status = completed, processed_at = NOW()
WHERE id = taskID; no guard on the current status. -/
def markCompleted (now : Int) (taskID : Int) (s : QState) : QState :=
  { s with tasks := s.tasks.map (fun t =>
      if t.id == taskID then { t with status := "completed", processedAt := some now }
      else t) }

/-- The backoff computation of Queue.MarkFailed: int(math.Pow(2, float64(attempts-1))).
Powers of two are exact in IEEE754 double (math.Pow(2, n) = 2^n for every integer n with
abs n <= 1023), and Go's float-to-int conversion truncates toward zero, so the expression
equals 2^(attempts-1) for attempts >= 1 and 0 for attempts <= 0 (2^negative < 1
truncates to 0). Faithful below int64 overflow, i.e. for attempts - 1 < 63. -/
def backoffMinutes (attempts : Int) : Int :=
  if 1 ≤ attempts then 2 ^ (attempts - 1).toNat else 0

/-- Queue.MarkFailed (queue.go): attempts >= maxAttempts marks the row permanently
failed (status failed, error, processed_at = NOW()); otherwise the row goes back to
pending with error set and next_retry_at = NOW() + backoff minutes. No guard on the
current status; the stored attempts column is not touched by either branch. -/
def markFailed (now : Int) (taskID : Int) (attempts maxAttempts : Int)
    (errorMsg : String) (s : QState) : QState :=
  if attempts ≥ maxAttempts then
    { s with tasks := s.tasks.map (fun t =>
        if t.id == taskID then
          { t with status := "failed", error := some errorMsg, processedAt := some now }
        else t) }
  else
    { s with tasks := s.tasks.map (fun t =>
        if t.id == taskID then
          { t with status := "pending", error := some errorMsg,
                   nextRetryAt := now + backoffMinutes attempts * minute }
        else t) }

/-- Sender.Send (sender.go): fails fast on an email type with no config; the remaining
pipeline (json.Unmarshal of the payload, template rendering, SMTP delivery) is external
and enters as the oracle argument. -/
def senderSend (oracle : Except String Unit) (t : EmailTask) : Except String Unit :=
  match GetConfig t.emailType with
  | none => Except.error ("unknown email type: " ++ EmailTypeString t.emailType)
  | some _ => oracle

/-- processNextTask (cmd/verificator/main.go): dequeue; nil task is a quiet no-op;
a send error is routed to MarkFailed with the dequeued task's Attempts and MaxAttempts
and returned; success is routed to MarkCompleted. The same tick time stands in for the
closely spaced time.Now() calls within one tick. -/
def processNextTask (now : Int) (oracle : Except String Unit) (s : QState) :
    QState × Except String Unit :=
  match dequeue now s with
  | Except.error e => (s, Except.error e)
  | Except.ok (none, s1) => (s1, Except.ok ())
  | Except.ok (some t, s1) =>
    match senderSend oracle t with
    | Except.error e => (markFailed now t.id t.attempts t.maxAttempts e s1, Except.error e)
    | Except.ok _ => (markCompleted now t.id s1, Except.ok ())

/-- One iteration of the worker loop in main: errors from processNextTask are only
logged, the loop always continues with the resulting state. -/
def workerTick (now : Int) (oracle : Except String Unit) (s : QState) : QState :=
  (processNextTask now oracle s).1

/-- The state transitions of the system: a successful Enqueue by the web handler, or
one full worker tick (Dequeue and, if a task was claimed, its matching
MarkCompleted or MarkFailed). Tick times and delivery outcomes are arbitrary. -/
inductive WStep : QState → QState → Prop
  | enq (ty : Int) (rcpt : String) (uid : Option Int) (pm : Except String String)
      (now : Int) (s s' : QState) :
      enqueue ty rcpt uid pm now s = Except.ok s' → WStep s s'
  | tick (now : Int) (oracle : Except String Unit) (s : QState) :
      WStep s (workerTick now oracle s)

/-- A row in a terminal status. -/
def Terminal (t : Row) : Prop := t.status = "completed" ∨ t.status = "failed"

/-- The well-formedness invariant of a quiescent queue state (no claim in flight):
distinct ids below the id counter, statuses among pending, completed, failed,
pending rows strictly below their attempts ceiling, every row at or below its
ceiling, and terminal rows carrying a processed_at timestamp. -/
def QInv (s : QState) : Prop :=
  s.tasks.Pairwise (fun a b => a.id ≠ b.id) ∧
  (∀ t ∈ s.tasks, t.id < s.nextId) ∧
  (∀ t ∈ s.tasks, t.status = "pending" ∨ t.status = "completed" ∨ t.status = "failed") ∧
  (∀ t ∈ s.tasks, t.status = "pending" → t.attempts < t.maxAttempts) ∧
  (∀ t ∈ s.tasks, t.attempts ≤ t.maxAttempts) ∧
  (∀ t ∈ s.tasks, Terminal t → t.processedAt ≠ none)

/-- A freshly enqueued pending row, used as a concrete test vector. -/
def rowPend : Row :=
  { id := 1, emailType := "verification", recipientEmail := "a@b.c", userID := none,
    payload := "p", attempts := 0, maxAttempts := 3, status := "pending",
    error := none, createdAt := 10, processedAt := none, nextRetryAt := 10 }

/-- A completed row with a recorded processed_at, used as a concrete test vector. -/
def rowDone : Row :=
  { id := 2, emailType := "verification", recipientEmail := "a@b.c", userID := none,
    payload := "p", attempts := 1, maxAttempts := 3, status := "completed",
    error := none, createdAt := 1, processedAt := some 5, nextRetryAt := 1 }

/-- A pending row whose stored email_type is not a recognized kind. -/
def rowBad : Row :=
  { id := 3, emailType := "bogus", recipientEmail := "a@b.c", userID := none,
    payload := "p", attempts := 0, maxAttempts := 3, status := "pending",
    error := none, createdAt := 0, processedAt := none, nextRetryAt := 0 }

/-- A pending row one claim away from its attempts ceiling. -/
def rowAlmost : Row :=
  { id := 4, emailType := "notification", recipientEmail := "a@b.c", userID := none,
    payload := "p", attempts := 2, maxAttempts := 3, status := "pending",
    error := none, createdAt := 7, processedAt := none, nextRetryAt := 7 }

theorem eligible_iff {now : Int} {t : Row} :
    eligible now t = true ↔ (t.status = "pending" ∧ t.nextRetryAt ≤ now) := by
  simp [eligible]

theorem pickMin_none : ∀ {ts : List Row}, pickMin ts = none → ts = [] := by
  intro ts h
  cases ts with
  | nil => rfl
  | cons t ts =>
    cases hp : pickMin ts with
    | none => simp only [pickMin, hp] at h; cases h
    | some u => simp only [pickMin, hp] at h; split at h <;> cases h

theorem pickMin_mem : ∀ {ts : List Row} {r : Row}, pickMin ts = some r → r ∈ ts := by
  intro ts
  induction ts with
  | nil => intro r h; cases h
  | cons t ts ih =>
    intro r h
    cases hp : pickMin ts with
    | none => simp only [pickMin, hp] at h; cases h; exact List.mem_cons_self _ _
    | some u =>
      simp only [pickMin, hp] at h
      by_cases hc : t.createdAt ≤ u.createdAt
      · rw [if_pos hc] at h; cases h; exact List.mem_cons_self _ _
      · rw [if_neg hc] at h; cases h; exact List.mem_cons_of_mem _ (ih hp)

theorem pickMin_le : ∀ {ts : List Row} {r : Row}, pickMin ts = some r →
    ∀ x ∈ ts, r.createdAt ≤ x.createdAt := by
  intro ts
  induction ts with
  | nil => intro r h; cases h
  | cons t ts ih =>
    intro r h x hx
    cases hp : pickMin ts with
    | none =>
      simp only [pickMin, hp] at h; cases h
      have hnil := pickMin_none hp
      subst hnil
      rcases List.mem_cons.mp hx with h1 | h1
      · rw [h1]
      · cases h1
    | some u =>
      simp only [pickMin, hp] at h
      by_cases hc : t.createdAt ≤ u.createdAt
      · rw [if_pos hc] at h; cases h
        rcases List.mem_cons.mp hx with h1 | h1
        · rw [h1]
        · exact le_trans hc (ih hp x h1)
      · rw [if_neg hc] at h; cases h
        rcases List.mem_cons.mp hx with h1 | h1
        · rw [h1]; omega
        · exact ih hp x h1

theorem selectNext_some {now : Int} {ts : List Row} {r : Row}
    (h : selectNext now ts = some r) :
    r ∈ ts ∧ eligible now r = true ∧
      ∀ x ∈ ts, eligible now x = true → r.createdAt ≤ x.createdAt := by
  unfold selectNext at h
  have hm := pickMin_mem h
  have hf := List.mem_filter.mp hm
  refine ⟨hf.1, hf.2, ?_⟩
  intro x hx hel
  exact pickMin_le h x (List.mem_filter.mpr ⟨hx, hel⟩)

theorem selectNext_eq_none {now : Int} {ts : List Row}
    (h : ∀ x ∈ ts, eligible now x = false) : selectNext now ts = none := by
  unfold selectNext
  have hnil : ts.filter (fun t => eligible now t) = [] := by
    apply List.filter_eq_nil_iff.mpr
    intro a ha
    rw [h a ha]
    simp
  rw [hnil]
  rfl

theorem mem_update_other {ts : List Row} {t : Row} {i : Int} (f : Row → Row)
    (h : t ∈ ts) (hid : t.id ≠ i) :
    t ∈ ts.map (fun x => if x.id == i then f x else x) := by
  have hm := List.mem_map_of_mem (fun x => if x.id == i then f x else x) h
  simpa [hid] using hm

theorem mem_update_hit {ts : List Row} {t : Row} {i : Int} (f : Row → Row)
    (h : t ∈ ts) (hid : t.id = i) :
    f t ∈ ts.map (fun x => if x.id == i then f x else x) := by
  have hm := List.mem_map_of_mem (fun x => if x.id == i then f x else x) h
  simpa [hid] using hm

theorem mem_update_split {ts : List Row} {i : Int} {f : Row → Row} {u : Row}
    (h : u ∈ ts.map (fun x => if x.id == i then f x else x)) :
    ∃ x ∈ ts, (x.id ≠ i ∧ u = x) ∨ (x.id = i ∧ u = f x) := by
  rcases List.mem_map.mp h with ⟨x, hx, hux⟩
  by_cases hxi : x.id = i
  · exact ⟨x, hx, Or.inr ⟨hxi, by rw [← hux]; simp [hxi]⟩⟩
  · exact ⟨x, hx, Or.inl ⟨hxi, by rw [← hux]; simp [hxi]⟩⟩

theorem pairwise_update {ts : List Row} (hp : ts.Pairwise (fun a b => a.id ≠ b.id))
    {i : Int} (f : Row → Row) (hf : ∀ x, (f x).id = x.id) :
    (ts.map (fun x => if x.id == i then f x else x)).Pairwise
      (fun a b => a.id ≠ b.id) := by
  rw [List.pairwise_map]
  apply hp.imp
  intro a b hab
  have ha : (if a.id == i then f a else a).id = a.id := by
    split
    · exact hf a
    · rfl
  have hb : (if b.id == i then f b else b).id = b.id := by
    split
    · exact hf b
    · rfl
  rw [ha, hb]
  exact hab

theorem eq_of_mem_ids : ∀ {ts : List Row},
    ts.Pairwise (fun a b => a.id ≠ b.id) →
    ∀ {x r : Row}, x ∈ ts → r ∈ ts → x.id = r.id → x = r := by
  intro ts
  induction ts with
  | nil => intro _ x r hx _ _; cases hx
  | cons a l ih =>
    intro hp x r hx hr hid
    rcases List.pairwise_cons.mp hp with ⟨ha, hl⟩
    rcases List.mem_cons.mp hx with hx1 | hx1 <;> rcases List.mem_cons.mp hr with hr1 | hr1
    · rw [hx1, hr1]
    · rw [hx1] at hid; exact absurd hid (ha r hr1)
    · rw [hr1] at hid; exact absurd hid.symm (ha x hx1)
    · exact ih hl hx1 hr1 hid

theorem dequeue_ok_none {now : Int} {s s1 : QState}
    (h : dequeue now s = Except.ok (none, s1)) :
    s1 = s ∧ selectNext now s.tasks = none := by
  cases hsel : selectNext now s.tasks with
  | none =>
    simp only [dequeue, hsel] at h
    simp only [Except.ok.injEq, Prod.mk.injEq] at h
    exact ⟨h.2.symm, rfl⟩
  | some row =>
    simp only [dequeue, hsel] at h
    cases hp : ParseEmailType row.emailType with
    | error e => rw [hp] at h; cases h
    | ok k => rw [hp] at h; simp at h

theorem dequeue_ok_some {now : Int} {s : QState} {r : EmailTask} {s1 : QState}
    (h : dequeue now s = Except.ok (some r, s1)) :
    ∃ row k, selectNext now s.tasks = some row ∧
      ParseEmailType row.emailType = Except.ok k ∧
      r = returnedTask row k ∧
      s1 = { s with tasks := claimUpdate row s.tasks } := by
  cases hsel : selectNext now s.tasks with
  | none => simp only [dequeue, hsel] at h; simp at h
  | some row =>
    simp only [dequeue, hsel] at h
    cases hp : ParseEmailType row.emailType with
    | error e => rw [hp] at h; cases h
    | ok k =>
      rw [hp] at h
      simp only [Except.ok.injEq, Prod.mk.injEq, Option.some.injEq] at h
      exact ⟨row, k, rfl, hp, h.1.symm, h.2.symm⟩

/-- C6: Enqueue appends exactly one row that is pending, with zero attempts and
next_retry_at equal to the insertion time (immediately eligible), and it returns an
error exactly when json.Marshal of the payload fails (the store is modelled as
available). -/
theorem enqueue_inserts_one_pending (ty : Int) (rcpt : String) (uid : Option Int)
    (pm : Except String String) (now : Int) (s : QState) :
    (∀ e, pm = Except.error e →
      enqueue ty rcpt uid pm now s = Except.error ("marshal payload: " ++ e)) ∧
    (∀ bytes, pm = Except.ok bytes →
      ∃ t : Row,
        enqueue ty rcpt uid pm now s =
          Except.ok { tasks := s.tasks ++ [t], nextId := s.nextId + 1 } ∧
        t.status = "pending" ∧ t.attempts = 0 ∧ t.nextRetryAt = now ∧
        t.createdAt = now ∧ t.processedAt = none ∧ t.maxAttempts = 3) := by
  constructor
  · intro e he; subst he; rfl
  · intro bytes hb; subst hb
    exact ⟨newRow ty rcpt uid bytes now s.nextId, rfl, rfl, rfl, rfl, rfl, rfl, rfl⟩

theorem enqueue_inserts_one_pending_witness :
    ∃ t : Row,
      enqueue 0 "a@b.c" none (Except.ok "p") 10 ⟨[], 1⟩ =
        Except.ok { tasks := ([] : List Row) ++ [t], nextId := (1 : Int) + 1 } ∧
      t.status = "pending" ∧ t.attempts = 0 ∧ t.nextRetryAt = 10 ∧
      t.createdAt = 10 ∧ t.processedAt = none ∧ t.maxAttempts = 3 :=
  (enqueue_inserts_one_pending 0 "a@b.c" none (Except.ok "p") 10 ⟨[], 1⟩).2 "p" rfl

/-- C2: MarkFailed branches on the attempts ceiling: at or above the ceiling the row
becomes failed with processed_at and last error set; below it the row returns to
pending with the error set and next_retry_at pushed out by the backoff, making it
eligible again exactly once that time is reached; rows with other ids are untouched. -/
theorem markFailed_branches (now taskID a m : Int) (msg : String) (s : QState)
    (t : Row) (ht : t ∈ s.tasks) :
    (t.id ≠ taskID → t ∈ (markFailed now taskID a m msg s).tasks) ∧
    (t.id = taskID → m ≤ a →
      { t with status := "failed", error := some msg, processedAt := some now }
        ∈ (markFailed now taskID a m msg s).tasks) ∧
    (t.id = taskID → a < m →
      { t with status := "pending", error := some msg,
               nextRetryAt := now + backoffMinutes a * minute }
        ∈ (markFailed now taskID a m msg s).tasks ∧
      eligible (now + backoffMinutes a * minute)
        { t with status := "pending", error := some msg,
                 nextRetryAt := now + backoffMinutes a * minute } = true) := by
  unfold markFailed
  by_cases hge : a ≥ m
  · rw [if_pos hge]
    refine ⟨fun hne => mem_update_other _ ht hne,
      fun hid _ => mem_update_hit _ ht hid, ?_⟩
    intro _ hlt; omega
  · rw [if_neg hge]
    refine ⟨fun hne => mem_update_other _ ht hne, ?_, ?_⟩
    · intro _ hle; omega
    · intro hid _
      exact ⟨mem_update_hit _ ht hid, eligible_iff.mpr ⟨rfl, le_refl _⟩⟩

theorem markFailed_branches_witness :
    ({ rowDone with status := "failed", error := some "boom", processedAt := some 20 }
       ∈ (markFailed 20 2 3 3 "boom" ⟨[rowDone], 3⟩).tasks) ∧
    ({ rowPend with status := "pending", error := some "boom",
                     nextRetryAt := 20 + backoffMinutes 1 * minute }
       ∈ (markFailed 20 1 1 3 "boom" ⟨[rowPend], 2⟩).tasks) := by
  constructor
  · exact (markFailed_branches 20 2 3 3 "boom" ⟨[rowDone], 3⟩ rowDone
      (by decide)).2.1 (by decide) (by decide)
  · exact ((markFailed_branches 20 1 1 3 "boom" ⟨[rowPend], 2⟩ rowPend
      (by decide)).2.2 (by decide) (by decide)).1

/-- C10: with attempts = 0 and a positive ceiling the retriable branch computes a zero
backoff (int of two to the power minus one truncates to zero), so next_retry_at is set
to now and the row is immediately eligible again; positive delays only start at
attempts = 1. -/
theorem markFailed_zero_backoff (now taskID m : Int) (msg : String) (s : QState)
    (t : Row) (ht : t ∈ s.tasks) (hid : t.id = taskID) (hm : 0 < m) :
    backoffMinutes 0 = 0 ∧
    { t with status := "pending", error := some msg, nextRetryAt := now }
      ∈ (markFailed now taskID 0 m msg s).tasks ∧
    eligible now
      { t with status := "pending", error := some msg, nextRetryAt := now } = true ∧
    (∀ a : Int, 1 ≤ a → 0 < backoffMinutes a) := by
  refine ⟨rfl, ?_, eligible_iff.mpr ⟨rfl, le_refl now⟩, ?_⟩
  · unfold markFailed
    rw [if_neg (by omega : ¬ (0 ≥ m))]
    have hz : now + backoffMinutes 0 * minute = now := by
      have hb : backoffMinutes 0 = 0 := rfl
      rw [hb]; ring
    rw [hz]
    exact mem_update_hit _ ht hid
  · intro a ha
    unfold backoffMinutes
    rw [if_pos ha]
    positivity

theorem markFailed_zero_backoff_witness :
    backoffMinutes 0 = 0 ∧
    { rowPend with status := "pending", error := some "x", nextRetryAt := 30 }
      ∈ (markFailed 30 1 0 3 "x" ⟨[rowPend], 2⟩).tasks :=
  ⟨(markFailed_zero_backoff 30 1 3 "x" ⟨[rowPend], 2⟩ rowPend (by decide)
      (by decide) (by decide)).1,
   (markFailed_zero_backoff 30 1 3 "x" ⟨[rowPend], 2⟩ rowPend (by decide)
      (by decide) (by decide)).2.1⟩

/-- C3: for attempts at least 1 the backoff used by the retriable branch of MarkFailed
is exactly two to the power attempts minus one (minutes), strictly increasing in
attempts and unbounded (no cap); the retriable branch pushes next_retry_at out by
exactly that delay. -/
theorem backoff_is_exponential (a : Int) (h1 : 1 ≤ a) :
    backoffMinutes a = 2 ^ (a - 1).toNat ∧
    backoffMinutes a < backoffMinutes (a + 1) ∧
    (∀ B : Int, ∃ b : Int, 1 ≤ b ∧ B < backoffMinutes b) ∧
    (∀ now taskID m msg s, ∀ t ∈ (s : QState).tasks, t.id = taskID → a < m →
      { t with status := "pending", error := some msg,
               nextRetryAt := now + backoffMinutes a * minute }
        ∈ (markFailed now taskID a m msg s).tasks) := by
  refine ⟨?_, ?_, ?_, ?_⟩
  · unfold backoffMinutes; rw [if_pos h1]
  · unfold backoffMinutes
    rw [if_pos h1, if_pos (by omega : (1:Int) ≤ a + 1)]
    have he : (a + 1 - 1).toNat = (a - 1).toNat + 1 := by omega
    rw [he, pow_succ]
    have hp : (0:Int) < 2 ^ (a - 1).toNat := by positivity
    linarith
  · intro B
    refine ⟨(B.toNat : Int) + 1, by omega, ?_⟩
    unfold backoffMinutes
    rw [if_pos (by omega : (1:Int) ≤ (B.toNat : Int) + 1)]
    have he : ((B.toNat : Int) + 1 - 1).toNat = B.toNat := by omega
    rw [he]
    have h2 : ((B.toNat : Nat) : Int) < ((2 ^ B.toNat : Nat) : Int) := by
      exact_mod_cast Nat.lt_two_pow B.toNat
    have h3 : B ≤ (B.toNat : Int) := Int.self_le_toNat B
    have h4 : ((2 ^ B.toNat : Nat) : Int) = 2 ^ B.toNat := by push_cast; ring
    omega
  · intro now taskID m msg s t ht hid hlt
    unfold markFailed
    rw [if_neg (by omega : ¬ a ≥ m)]
    exact mem_update_hit _ ht hid

theorem backoff_is_exponential_witness :
    (1 : Int) ≤ 2 ∧ backoffMinutes 2 = 2 ^ ((2 : Int) - 1).toNat ∧
    backoffMinutes 2 < backoffMinutes (2 + 1) :=
  ⟨by decide, (backoff_is_exponential 2 (by decide)).1,
   (backoff_is_exponential 2 (by decide)).2.1⟩

/-- C5 (amended): MarkCompleted unconditionally rewrites the addressed row to status
completed with processed_at set to the time of that call, leaving other rows
untouched; a second call leaves the row completed but overwrites processed_at with
the later call's time, and a call on an already terminal row likewise rewrites it
rather than acting as a no-op. -/
theorem markCompleted_sets_completed (now1 now2 taskID : Int) (s : QState) (t : Row)
    (ht : t ∈ s.tasks) :
    (t.id ≠ taskID → t ∈ (markCompleted now1 taskID s).tasks) ∧
    (t.id = taskID →
      { t with status := "completed", processedAt := some now1 }
        ∈ (markCompleted now1 taskID s).tasks ∧
      { t with status := "completed", processedAt := some now2 }
        ∈ (markCompleted now2 taskID (markCompleted now1 taskID s)).tasks) := by
  refine ⟨fun hne => mem_update_other _ ht hne, fun hid => ⟨mem_update_hit _ ht hid, ?_⟩⟩
  have h1 : { t with status := "completed", processedAt := some now1 }
      ∈ (markCompleted now1 taskID s).tasks := mem_update_hit _ ht hid
  exact mem_update_hit
    (t := { t with status := "completed", processedAt := some now1 })
    (f := fun x => { x with status := "completed", processedAt := some now2 }) h1 hid

theorem markCompleted_sets_completed_witness :
    { rowDone with status := "completed", processedAt := some (7 : Int) }
      ∈ (markCompleted 7 2 (markCompleted 6 2 ⟨[rowDone], 3⟩)).tasks :=
  ((markCompleted_sets_completed 6 7 2 ⟨[rowDone], 3⟩ rowDone (by decide)).2
    (by decide)).2

/-- C5 counterexample: MarkCompleted is not a no-op on a task that is already terminal
and does not preserve the first processed_at value: rowDone is already completed with
processed_at 5, yet a MarkCompleted call at time 9 changes the state, rewriting
processed_at to 9. -/
theorem markCompleted_not_noop :
    markCompleted 9 2 ⟨[rowDone], 3⟩ ≠ ⟨[rowDone], 3⟩ ∧
    (markCompleted 9 2 ⟨[rowDone], 3⟩).tasks =
      [{ rowDone with processedAt := some 9 }] ∧
    rowDone.status = "completed" ∧ rowDone.processedAt = some 5 := by
  refine ⟨?_, ?_, ?_, ?_⟩ <;> decide

/-- C1: Dequeue returns ok with a nil task and an unchanged state when no row is both
pending and past its next_retry_at; and whenever it returns a task, that task comes
from a pending eligible row with minimal created_at among all eligible rows, carries
attempts incremented by one, and the state transitions exactly that row to processing
with the incremented attempts, leaving all other rows in place. -/
theorem claimNext_dequeue (now : Int) (s : QState) :
    ((∀ t ∈ s.tasks, eligible now t = false) → dequeue now s = Except.ok (none, s)) ∧
    (∀ r s1, dequeue now s = Except.ok (some r, s1) →
      ∃ row ∈ s.tasks,
        row.status = "pending" ∧ row.nextRetryAt ≤ now ∧
        (∀ x ∈ s.tasks, eligible now x = true → row.createdAt ≤ x.createdAt) ∧
        r.id = row.id ∧ r.attempts = row.attempts + 1 ∧
        r.maxAttempts = row.maxAttempts ∧
        { row with status := "processing", attempts := row.attempts + 1 } ∈ s1.tasks ∧
        (∀ x ∈ s.tasks, x.id ≠ row.id → x ∈ s1.tasks)) := by
  constructor
  · intro hall
    unfold dequeue
    rw [selectNext_eq_none hall]
  · intro r s1 h
    rcases dequeue_ok_some h with ⟨row, k, hsel, hp, hr, hs1⟩
    rcases selectNext_some hsel with ⟨hmem, hel, hmin⟩
    rcases eligible_iff.mp hel with ⟨hstat, hretry⟩
    refine ⟨row, hmem, hstat, hretry, hmin, ?_, ?_, ?_, ?_, ?_⟩
    · rw [hr]; rfl
    · rw [hr]; rfl
    · rw [hr]; rfl
    · rw [hs1]
      exact mem_update_hit _ hmem rfl
    · intro x hx hne
      rw [hs1]
      exact mem_update_other _ hx hne

theorem claimNext_dequeue_witness :
    ∃ row ∈ (⟨[rowPend], 2⟩ : QState).tasks,
      row.status = "pending" ∧ row.nextRetryAt ≤ 50 ∧
      (∀ x ∈ (⟨[rowPend], 2⟩ : QState).tasks,
        eligible 50 x = true → row.createdAt ≤ x.createdAt) ∧
      (returnedTask rowPend 0).id = row.id ∧
      (returnedTask rowPend 0).attempts = row.attempts + 1 ∧
      (returnedTask rowPend 0).maxAttempts = row.maxAttempts ∧
      { row with status := "processing", attempts := row.attempts + 1 }
        ∈ (claimUpdate rowPend [rowPend]) ∧
      (∀ x ∈ (⟨[rowPend], 2⟩ : QState).tasks,
        x.id ≠ row.id → x ∈ (claimUpdate rowPend [rowPend])) :=
  (claimNext_dequeue 50 ⟨[rowPend], 2⟩).2 (returnedTask rowPend 0)
    ⟨claimUpdate rowPend [rowPend], 2⟩ rfl

theorem mem_double_split {ts : List Row} {i : Int} {f g : Row → Row} {u : Row}
    (hu : u ∈ (ts.map (fun x => if x.id == i then f x else x)).map
           (fun x => if x.id == i then g x else x))
    (hfid : ∀ x, (f x).id = x.id) :
    ∃ y ∈ ts, (y.id ≠ i ∧ u = y) ∨ (y.id = i ∧ u = g (f y)) := by
  rcases mem_update_split hu with ⟨x, hx, hcase⟩
  rcases mem_update_split hx with ⟨y, hy, hcase2⟩
  refine ⟨y, hy, ?_⟩
  rcases hcase2 with ⟨hne, hxy⟩ | ⟨heq, hxy⟩
  · rcases hcase with ⟨hne2, hux⟩ | ⟨heq2, hux⟩
    · exact Or.inl ⟨hne, hux.trans hxy⟩
    · rw [hxy] at heq2; exact absurd heq2 hne
  · rcases hcase with ⟨hne2, hux⟩ | ⟨heq2, hux⟩
    · rw [hxy, hfid y] at hne2; exact absurd heq hne2
    · exact Or.inr ⟨heq, by rw [hux, hxy]⟩

theorem workerTick_cases (now : Int) (oracle : Except String Unit) (s : QState) :
    workerTick now oracle s = s ∨
    (∃ r s1, dequeue now s = Except.ok (some r, s1) ∧
      (workerTick now oracle s = markCompleted now r.id s1 ∨
       ∃ e, workerTick now oracle s =
         markFailed now r.id r.attempts r.maxAttempts e s1)) := by
  cases hdq : dequeue now s with
  | error e =>
    left
    simp only [workerTick, processNextTask, hdq]
  | ok p =>
    rcases p with ⟨ot, s1⟩
    cases ot with
    | none =>
      left
      have hse := (dequeue_ok_none hdq).1
      simp only [workerTick, processNextTask, hdq]
      exact hse
    | some t =>
      right
      refine ⟨t, s1, rfl, ?_⟩
      cases hsnd : senderSend oracle t with
      | error e =>
        right
        exact ⟨e, by simp only [workerTick, processNextTask, hdq, hsnd]⟩
      | ok u =>
        left
        simp only [workerTick, processNextTask, hdq, hsnd]

theorem qinv_after_complete {s : QState} (hs : QInv s) {now : Int} {row : Row}
    (hmem : row ∈ s.tasks) (hstat : row.status = "pending") :
    QInv (markCompleted now row.id { s with tasks := claimUpdate row s.tasks }) := by
  obtain ⟨hpw, hid, hstat3, hpend, hle, hproc⟩ := hs
  have hattlt : row.attempts < row.maxAttempts := hpend row hmem hstat
  unfold markCompleted claimUpdate QInv
  dsimp only
  refine ⟨?_, ?_, ?_, ?_, ?_, ?_⟩
  · apply pairwise_update
    · apply pairwise_update
      · exact hpw
      · intro x; rfl
    · intro x; rfl
  · intro u hu
    rcases mem_double_split hu (fun x => rfl) with ⟨y, hy, ⟨_, hueq⟩ | ⟨_, hueq⟩⟩
    · rw [hueq]; exact hid y hy
    · rw [hueq]; show y.id < s.nextId; exact hid y hy
  · intro u hu
    rcases mem_double_split hu (fun x => rfl) with ⟨y, hy, ⟨_, hueq⟩ | ⟨_, hueq⟩⟩
    · rw [hueq]; exact hstat3 y hy
    · rw [hueq]; right; left; rfl
  · intro u hu
    rcases mem_double_split hu (fun x => rfl) with ⟨y, hy, ⟨_, hueq⟩ | ⟨_, hueq⟩⟩
    · rw [hueq]; exact hpend y hy
    · rw [hueq]
      intro hcon
      have hcon2 : "completed" = "pending" := hcon
      exact absurd hcon2 (by decide)
  · intro u hu
    rcases mem_double_split hu (fun x => rfl) with ⟨y, hy, ⟨_, hueq⟩ | ⟨heq, hueq⟩⟩
    · rw [hueq]; exact hle y hy
    · rw [hueq]
      have hyrow : y = row := eq_of_mem_ids hpw hy hmem heq
      rw [hyrow]
      show row.attempts + 1 ≤ row.maxAttempts
      omega
  · intro u hu
    rcases mem_double_split hu (fun x => rfl) with ⟨y, hy, ⟨_, hueq⟩ | ⟨_, hueq⟩⟩
    · rw [hueq]; exact hproc y hy
    · rw [hueq]
      intro _
      show (some now : Option Int) ≠ none
      simp

theorem qinv_after_fail {s : QState} (hs : QInv s) {now : Int} {row : Row} {e : String}
    (hmem : row ∈ s.tasks) (hstat : row.status = "pending") :
    QInv (markFailed now row.id (row.attempts + 1) row.maxAttempts e
      { s with tasks := claimUpdate row s.tasks }) := by
  obtain ⟨hpw, hid, hstat3, hpend, hle, hproc⟩ := hs
  have hattlt : row.attempts < row.maxAttempts := hpend row hmem hstat
  unfold markFailed claimUpdate QInv
  by_cases hge : row.attempts + 1 ≥ row.maxAttempts
  · rw [if_pos hge]
    dsimp only
    refine ⟨?_, ?_, ?_, ?_, ?_, ?_⟩
    · apply pairwise_update
      · apply pairwise_update
        · exact hpw
        · intro x; rfl
      · intro x; rfl
    · intro u hu
      rcases mem_double_split hu (fun x => rfl) with ⟨y, hy, ⟨_, hueq⟩ | ⟨_, hueq⟩⟩
      · rw [hueq]; exact hid y hy
      · rw [hueq]; show y.id < s.nextId; exact hid y hy
    · intro u hu
      rcases mem_double_split hu (fun x => rfl) with ⟨y, hy, ⟨_, hueq⟩ | ⟨_, hueq⟩⟩
      · rw [hueq]; exact hstat3 y hy
      · rw [hueq]; right; right; rfl
    · intro u hu
      rcases mem_double_split hu (fun x => rfl) with ⟨y, hy, ⟨_, hueq⟩ | ⟨_, hueq⟩⟩
      · rw [hueq]; exact hpend y hy
      · rw [hueq]
        intro hcon
        have hcon2 : "failed" = "pending" := hcon
        exact absurd hcon2 (by decide)
    · intro u hu
      rcases mem_double_split hu (fun x => rfl) with ⟨y, hy, ⟨_, hueq⟩ | ⟨heq, hueq⟩⟩
      · rw [hueq]; exact hle y hy
      · rw [hueq]
        have hyrow : y = row := eq_of_mem_ids hpw hy hmem heq
        rw [hyrow]
        show row.attempts + 1 ≤ row.maxAttempts
        omega
    · intro u hu
      rcases mem_double_split hu (fun x => rfl) with ⟨y, hy, ⟨_, hueq⟩ | ⟨_, hueq⟩⟩
      · rw [hueq]; exact hproc y hy
      · rw [hueq]
        intro _
        show (some now : Option Int) ≠ none
        simp
  · rw [if_neg hge]
    dsimp only
    refine ⟨?_, ?_, ?_, ?_, ?_, ?_⟩
    · apply pairwise_update
      · apply pairwise_update
        · exact hpw
        · intro x; rfl
      · intro x; rfl
    · intro u hu
      rcases mem_double_split hu (fun x => rfl) with ⟨y, hy, ⟨_, hueq⟩ | ⟨_, hueq⟩⟩
      · rw [hueq]; exact hid y hy
      · rw [hueq]; show y.id < s.nextId; exact hid y hy
    · intro u hu
      rcases mem_double_split hu (fun x => rfl) with ⟨y, hy, ⟨_, hueq⟩ | ⟨_, hueq⟩⟩
      · rw [hueq]; exact hstat3 y hy
      · rw [hueq]; left; rfl
    · intro u hu
      rcases mem_double_split hu (fun x => rfl) with ⟨y, hy, ⟨_, hueq⟩ | ⟨heq, hueq⟩⟩
      · rw [hueq]; exact hpend y hy
      · rw [hueq]
        intro _
        have hyrow : y = row := eq_of_mem_ids hpw hy hmem heq
        rw [hyrow]
        show row.attempts + 1 < row.maxAttempts
        omega
    · intro u hu
      rcases mem_double_split hu (fun x => rfl) with ⟨y, hy, ⟨_, hueq⟩ | ⟨heq, hueq⟩⟩
      · rw [hueq]; exact hle y hy
      · rw [hueq]
        have hyrow : y = row := eq_of_mem_ids hpw hy hmem heq
        rw [hyrow]
        show row.attempts + 1 ≤ row.maxAttempts
        omega
    · intro u hu
      rcases mem_double_split hu (fun x => rfl) with ⟨y, hy, ⟨_, hueq⟩ | ⟨_, hueq⟩⟩
      · rw [hueq]; exact hproc y hy
      · rw [hueq]
        intro hterm2
        rcases hterm2 with hc | hc
        · have hcon2 : "pending" = "completed" := hc
          exact absurd hcon2 (by decide)
        · have hcon2 : "pending" = "failed" := hc
          exact absurd hcon2 (by decide)

theorem qinv_tick (now : Int) (oracle : Except String Unit) (s : QState)
    (hs : QInv s) : QInv (workerTick now oracle s) := by
  rcases workerTick_cases now oracle s with heq | ⟨r, s1, hdq, hcase⟩
  · rw [heq]; exact hs
  · rcases dequeue_ok_some hdq with ⟨row, k, hsel, hp, hr, hs1⟩
    rcases selectNext_some hsel with ⟨hmem, hel, _⟩
    rcases eligible_iff.mp hel with ⟨hstat, _⟩
    rcases hcase with hc | ⟨e, hc⟩
    · rw [hc, hr, hs1]
      exact qinv_after_complete ⟨hs.1, hs.2.1, hs.2.2.1, hs.2.2.2.1,
        hs.2.2.2.2.1, hs.2.2.2.2.2⟩ hmem hstat
    · rw [hc, hr, hs1]
      exact qinv_after_fail ⟨hs.1, hs.2.1, hs.2.2.1, hs.2.2.2.1,
        hs.2.2.2.2.1, hs.2.2.2.2.2⟩ hmem hstat

theorem qinv_enqueue {ty : Int} {rcpt : String} {uid : Option Int}
    {pm : Except String String} {now : Int} {s s1 : QState} (hs : QInv s)
    (h : enqueue ty rcpt uid pm now s = Except.ok s1) : QInv s1 := by
  obtain ⟨hpw, hid, hstat3, hpend, hle, hproc⟩ := hs
  cases pm with
  | error e => simp only [enqueue] at h; cases h
  | ok bytes =>
    simp only [enqueue, Except.ok.injEq] at h
    subst h
    refine ⟨?_, ?_, ?_, ?_, ?_, ?_⟩
    · rw [List.pairwise_append]
      refine ⟨hpw, List.pairwise_singleton _ _, ?_⟩
      intro a ha b hb
      have hbnew : b = newRow ty rcpt uid bytes now s.nextId := by
        simpa using hb
      rw [hbnew]
      have := hid a ha
      show a.id ≠ s.nextId
      omega
    · intro t ht
      rcases List.mem_append.mp ht with hin | hin
      · have := hid t hin
        show t.id < s.nextId + 1
        omega
      · have htnew : t = newRow ty rcpt uid bytes now s.nextId := by simpa using hin
        rw [htnew]
        show s.nextId < s.nextId + 1
        omega
    · intro t ht
      rcases List.mem_append.mp ht with hin | hin
      · exact hstat3 t hin
      · have htnew : t = newRow ty rcpt uid bytes now s.nextId := by simpa using hin
        rw [htnew]; left; rfl
    · intro t ht
      rcases List.mem_append.mp ht with hin | hin
      · exact hpend t hin
      · have htnew : t = newRow ty rcpt uid bytes now s.nextId := by simpa using hin
        rw [htnew]
        intro _
        show (0 : Int) < 3
        omega
    · intro t ht
      rcases List.mem_append.mp ht with hin | hin
      · exact hle t hin
      · have htnew : t = newRow ty rcpt uid bytes now s.nextId := by simpa using hin
        rw [htnew]
        show (0 : Int) ≤ 3
        omega
    · intro t ht
      rcases List.mem_append.mp ht with hin | hin
      · exact hproc t hin
      · have htnew : t = newRow ty rcpt uid bytes now s.nextId := by simpa using hin
        rw [htnew]
        intro hterm2
        rcases hterm2 with hc | hc
        · have hcon2 : "pending" = "completed" := hc
          exact absurd hcon2 (by decide)
        · have hcon2 : "pending" = "failed" := hc
          exact absurd hcon2 (by decide)

theorem qinv_wstep {s s1 : QState} (hs : QInv s) (h : WStep s s1) : QInv s1 := by
  cases h with
  | enq ty rcpt uid pm now s s1 henq => exact qinv_enqueue hs henq
  | tick now oracle s => exact qinv_tick now oracle s hs

theorem qinv_steps {s s1 : QState} (hs : QInv s)
    (h : Relation.ReflTransGen WStep s s1) : QInv s1 := by
  induction h with
  | refl => exact hs
  | tail hab hbc ih => exact qinv_wstep ih hbc

theorem terminal_id_ne {s : QState} (hs : QInv s) {u row : Row} (hu : u ∈ s.tasks)
    (hterm : Terminal u) (hmem : row ∈ s.tasks) (hstat : row.status = "pending") :
    u.id ≠ row.id := by
  intro hideq
  have hurow : u = row := eq_of_mem_ids hs.1 hu hmem hideq
  rcases hterm with hc | hc
  · rw [hurow, hstat] at hc
    exact absurd hc (by decide)
  · rw [hurow, hstat] at hc
    exact absurd hc (by decide)

theorem terminal_mem_wstep {s s1 : QState} (hs : QInv s) {u : Row} (hu : u ∈ s.tasks)
    (hterm : Terminal u) (h : WStep s s1) : u ∈ s1.tasks := by
  cases h with
  | enq ty rcpt uid pm now s s1 henq =>
    cases pm with
    | error e => simp only [enqueue] at henq; cases henq
    | ok bytes =>
      simp only [enqueue, Except.ok.injEq] at henq
      subst henq
      exact List.mem_append_left _ hu
  | tick now oracle s =>
    rcases workerTick_cases now oracle s with heq | ⟨r, s1x, hdq, hcase⟩
    · rw [heq]; exact hu
    · rcases dequeue_ok_some hdq with ⟨row, k, hsel, hp, hr, hs1x⟩
      rcases selectNext_some hsel with ⟨hmem, hel, _⟩
      rcases eligible_iff.mp hel with ⟨hstat, _⟩
      have hne : u.id ≠ row.id := terminal_id_ne hs hu hterm hmem hstat
      rcases hcase with hc | ⟨e, hc⟩
      · rw [hc, hr, hs1x]
        exact mem_update_other _ (mem_update_other _ hu hne) hne
      · rw [hc, hr, hs1x]
        unfold markFailed
        split
        · exact mem_update_other _ (mem_update_other _ hu hne) hne
        · exact mem_update_other _ (mem_update_other _ hu hne) hne

theorem dequeue_not_terminal {s : QState} (hs : QInv s) {u : Row} (hu : u ∈ s.tasks)
    (hterm : Terminal u) {now : Int} {t : EmailTask} {s2 : QState}
    (h : dequeue now s = Except.ok (some t, s2)) : t.id ≠ u.id := by
  rcases dequeue_ok_some h with ⟨row, k, hsel, hp, hr, _⟩
  rcases selectNext_some hsel with ⟨hmem, hel, _⟩
  rcases eligible_iff.mp hel with ⟨hstat, _⟩
  have hne : u.id ≠ row.id := terminal_id_ne hs hu hterm hmem hstat
  rw [hr]
  show row.id ≠ u.id
  exact fun hx => hne hx.symm

/-- C4: a task in a terminal status has processed_at recorded, and along every run of
the system (enqueues and full worker ticks) it stays in the store unchanged and no
Dequeue along the run ever returns a task with its id. -/
theorem terminal_stability (s : QState) (u : Row) (hs : QInv s) (hu : u ∈ s.tasks)
    (hterm : u.status = "completed" ∨ u.status = "failed") :
    u.processedAt ≠ none ∧
    ∀ s1, Relation.ReflTransGen WStep s s1 →
      u ∈ s1.tasks ∧
      ∀ now t s2, dequeue now s1 = Except.ok (some t, s2) → t.id ≠ u.id := by
  have hterm2 : Terminal u := hterm
  refine ⟨hs.2.2.2.2.2 u hu hterm2, ?_⟩
  intro s1 hsteps
  have key : QInv s1 ∧ u ∈ s1.tasks := by
    induction hsteps with
    | refl => exact ⟨hs, hu⟩
    | tail hab hbc ih =>
      exact ⟨qinv_wstep ih.1 hbc, terminal_mem_wstep ih.1 ih.2 hterm2 hbc⟩
  exact ⟨key.2, fun now t s2 hdq => dequeue_not_terminal key.1 key.2 hterm2 hdq⟩

theorem terminal_stability_witness :
    rowDone.processedAt ≠ none ∧
    rowDone ∈ (workerTick 100 (Except.ok ()) ⟨[rowDone], 3⟩).tasks := by
  have h := terminal_stability ⟨[rowDone], 3⟩ rowDone
    (by unfold QInv Terminal; decide) (by decide) (Or.inl (by decide))
  exact ⟨h.1, (h.2 (workerTick 100 (Except.ok ()) ⟨[rowDone], 3⟩)
    (Relation.ReflTransGen.single (WStep.tick 100 (Except.ok ()) ⟨[rowDone], 3⟩))).1⟩

/-- C7: in every state reachable from a well-formed quiescent state by enqueues and
full worker ticks (so never between a claim and its matching mark), every stored task
satisfies attempts at most max_attempts. -/
theorem attempts_ceiling (s : QState) (hs : QInv s) :
    ∀ s1, Relation.ReflTransGen WStep s s1 →
      ∀ t ∈ s1.tasks, t.attempts ≤ t.maxAttempts :=
  fun _ hsteps => (qinv_steps hs hsteps).2.2.2.2.1

theorem attempts_ceiling_witness :
    ({ rowPend with status := "pending", attempts := 1, error := some "boom", nextRetryAt := 60000000050 } : Row).attempts ≤ rowPend.maxAttempts :=
  attempts_ceiling ⟨[rowPend], 2⟩ (by unfold QInv Terminal; decide) _
    (Relation.ReflTransGen.single (WStep.tick 50 (Except.error "boom") ⟨[rowPend], 2⟩))
    { rowPend with status := "pending", attempts := 1, error := some "boom", nextRetryAt := 60000000050 }
    (by decide)

theorem parse_ok_values {str : String} {k : Int}
    (h : ParseEmailType str = Except.ok k) :
    k = EmailTypeVerification ∨ k = EmailTypePasswordReset ∨ k = EmailTypeNotification := by
  unfold ParseEmailType at h
  split at h
  · cases h; exact Or.inl rfl
  · cases h; exact Or.inr (Or.inl rfl)
  · cases h; exact Or.inr (Or.inr rfl)
  · cases h

theorem getConfig_some_of_parse {str : String} {k : Int}
    (h : ParseEmailType str = Except.ok k) : ∃ c, GetConfig k = some c := by
  rcases parse_ok_values h with h0 | h0 | h0 <;> rw [h0] <;> exact ⟨_, rfl⟩

theorem senderSend_dequeued {oracle : Except String Unit} {row : Row} {k : Int}
    (hp : ParseEmailType row.emailType = Except.ok k) :
    senderSend oracle (returnedTask row k) = oracle := by
  rcases getConfig_some_of_parse hp with ⟨c, hc⟩
  unfold senderSend
  have hk : (returnedTask row k).emailType = k := rfl
  rw [hk, hc]

theorem workerTick_sendFail {now : Int} {oracle : Except String Unit} {e : String}
    {s s1 : QState} {r : EmailTask}
    (hdq : dequeue now s = Except.ok (some r, s1))
    (hsnd : senderSend oracle r = Except.error e) :
    workerTick now oracle s = markFailed now r.id r.attempts r.maxAttempts e s1 := by
  simp only [workerTick, processNextTask, hdq, hsnd]

/-- C9: the task Dequeue returns carries Attempts equal to the stored value plus one,
the same value the store now holds for the claimed row; since the worker passes that
value to MarkFailed, a failed delivery makes the row permanently failed exactly when
the stored pre-claim attempts plus one reaches max_attempts (the m-th unsuccessful
delivery with ceiling m), and otherwise returns it to pending. -/
theorem dequeued_attempts_count_claim (now : Int) (oracle : Except String Unit)
    (s s1 : QState) (r : EmailTask) (e : String)
    (hdq : dequeue now s = Except.ok (some r, s1))
    (horacle : oracle = Except.error e) :
    ∃ row ∈ s.tasks,
      r.id = row.id ∧ r.attempts = row.attempts + 1 ∧ r.maxAttempts = row.maxAttempts ∧
      { row with status := "processing", attempts := row.attempts + 1 } ∈ s1.tasks ∧
      (row.maxAttempts ≤ row.attempts + 1 →
        { row with status := "failed", attempts := row.attempts + 1, error := some e, processedAt := some now } ∈ (workerTick now oracle s).tasks) ∧
      (row.attempts + 1 < row.maxAttempts →
        { row with status := "pending", attempts := row.attempts + 1, error := some e, nextRetryAt := now + backoffMinutes (row.attempts + 1) * minute } ∈ (workerTick now oracle s).tasks) := by
  rcases dequeue_ok_some hdq with ⟨row, k, hsel, hp, hr, hs1⟩
  rcases selectNext_some hsel with ⟨hmem, hel, _⟩
  subst horacle
  have hsnd : senderSend (Except.error e) r = Except.error e := by
    rw [hr]; exact senderSend_dequeued hp
  have htick := workerTick_sendFail hdq hsnd
  have hclaimed : ({ row with status := "processing", attempts := row.attempts + 1 } : Row)
      ∈ claimUpdate row s.tasks := mem_update_hit _ hmem rfl
  refine ⟨row, hmem, ?_, ?_, ?_, ?_, ?_, ?_⟩
  · rw [hr]; rfl
  · rw [hr]; rfl
  · rw [hr]; rfl
  · rw [hs1]; exact hclaimed
  · intro hge
    rw [htick, hr, hs1]
    unfold markFailed
    dsimp only [returnedTask]
    rw [if_pos (by omega : row.attempts + 1 ≥ row.maxAttempts)]
    exact mem_update_hit (f := fun x =>
      { x with status := "failed", error := some e, processedAt := some now }) hclaimed rfl
  · intro hlt
    rw [htick, hr, hs1]
    unfold markFailed
    dsimp only [returnedTask]
    rw [if_neg (by omega : ¬ row.attempts + 1 ≥ row.maxAttempts)]
    exact mem_update_hit (f := fun x =>
      { x with status := "pending", error := some e,
               nextRetryAt := now + backoffMinutes (row.attempts + 1) * minute }) hclaimed rfl

theorem dequeued_attempts_count_claim_witness :
    { rowAlmost with status := "failed", attempts := 3, error := some "smtp down", processedAt := some 7 }
      ∈ (workerTick 7 (Except.error "smtp down") ⟨[rowAlmost], 5⟩).tasks := by
  obtain ⟨row, hrow, hid2, hatt, hmax, hclaim, hfail, hpend⟩ :=
    dequeued_attempts_count_claim 7 (Except.error "smtp down") ⟨[rowAlmost], 5⟩
      ⟨claimUpdate rowAlmost [rowAlmost], 5⟩ (returnedTask rowAlmost 2) "smtp down"
      rfl rfl
  have hr2 : row = rowAlmost := List.mem_singleton.mp hrow
  rw [hr2] at hfail
  exact hfail (by decide)

/-- C8 (amended): a task whose stored kind is not a recognized email type is rejected
at claim time, not at delivery time: Dequeue hits the parse error, returns an error
and rolls the claim back, so a worker tick leaves the whole state unchanged; the task
stays pending with its attempts untouched through any number of ticks (it is never
routed to MarkFailed and never reaches the failed status), while the loop itself
merely logs the tick error and keeps running. -/
theorem unknown_kind_dequeue_error (now : Int) (oracle : Except String Unit)
    (s : QState) (row : Row) (e : String)
    (hsel : selectNext now s.tasks = some row)
    (hp : ParseEmailType row.emailType = Except.error e) :
    dequeue now s = Except.error ("parse email type: " ++ e) ∧
    workerTick now oracle s = s ∧
    ∀ n : Nat, (workerTick now oracle)^[n] s = s := by
  have hdq : dequeue now s = Except.error ("parse email type: " ++ e) := by
    simp only [dequeue, hsel, hp]
  have htick : workerTick now oracle s = s := by
    simp only [workerTick, processNextTask, hdq]
  refine ⟨hdq, htick, ?_⟩
  intro n
  induction n with
  | zero => rfl
  | succ n ih => rw [Function.iterate_succ_apply, htick]; exact ih

theorem unknown_kind_dequeue_error_witness :
    dequeue 0 ⟨[rowBad], 4⟩ =
      Except.error ("parse email type: " ++ ("bogus" ++ " is not a valid EmailType")) ∧
    workerTick 0 (Except.error "x") ⟨[rowBad], 4⟩ = ⟨[rowBad], 4⟩ ∧
    ∀ n : Nat, (workerTick 0 (Except.error "x"))^[n] ⟨[rowBad], 4⟩ = ⟨[rowBad], 4⟩ :=
  unknown_kind_dequeue_error 0 (Except.error "x") ⟨[rowBad], 4⟩ rowBad
    ("bogus" ++ " is not a valid EmailType") rfl rfl

/-- C8 counterexample: with the only task's stored kind unknown, one full worker cycle
neither routes the task to MarkFailed nor counts an attempt: Dequeue returns a parse
error, the tick leaves the state identical, and the task is still pending with zero
attempts, contradicting that an unknown kind is delivered, failed and eventually
permanently Failed. -/
theorem unknown_kind_not_failed :
    dequeue 0 ⟨[rowBad], 4⟩ =
      Except.error "parse email type: bogus is not a valid EmailType" ∧
    workerTick 0 (Except.ok ()) ⟨[rowBad], 4⟩ = ⟨[rowBad], 4⟩ ∧
    rowBad.status = "pending" ∧ rowBad.attempts = 0 := by
  exact ⟨rfl, rfl, rfl, rfl⟩
